import Mathlib

/-!
Verification development for `MixedIndentationRule`
(`verilog/analysis/checkers/mixed_indentation_rule.cc` / `.h`).

The rule is embedded shallowly:

* a file is a list of lines, each line a `List Char`
  (`TextStructureView::Lines()`);
* the external `TextStructureView` token lookup
  (`GetRangeForText` + `FindTokenAt`, followed by the
  `token.token_enum() == TK_SPACE` test) is modelled as an oracle
  `Classifier : Nat → Nat → TokenKind` giving the token kind at a
  (line, column) position; the embedding records the queried position as
  the violation's location;
* the rule object's mutable members (`indent_use_spaces`,
  `num_indent_spaces`, `violations_`) form `RuleState`, and every C++
  member function becomes a state-passing function of the same name.

The four distinct C++ diagnostic format strings are modelled by the four
constructors of `Msg`; the only datum interpolated into any of them is
`num_indent_spaces`, which the constructors carry.
-/

/-- Token kinds as seen by the rule: it only ever tests whether the token
at a position is `TK_SPACE`; other kinds (comment, string literal, other)
are never distinguished by the code. -/
inductive TokenKind where
  | tkSpace
  | tkComment
  | tkString
  | tkOther
deriving DecidableEq

/-- The external token classifier: maps (line index, column) to the kind
of the token at that position.  Models `TextStructureView::GetRangeForText`
followed by `FindTokenAt`. -/
abbrev Classifier := Nat → Nat → TokenKind

/-- The four diagnostic messages of the rule, one constructor per C++
format string:
* `mixedTabsSpaces0 w` = "Mixed indentation style using tabs and spaces (0).
  Expected indent style: `w` spaces"
* `mixedTabsSpaces1` = "Mixed indentation style using tabs and spaces (1).
  Expected indent style: tabs"
* `mixedTabsSpaces2 w` = "Mixed indentation style using tabs and spaces (2).
  Expected indent style: `w` spaces"
* `incorrectSpaces w` = "Incorrect number of spaces used for indentation.
  Expected indent style: `w` spaces" -/
inductive Msg where
  | mixedTabsSpaces0 (w : Nat)
  | mixedTabsSpaces1
  | mixedTabsSpaces2 (w : Nat)
  | incorrectSpaces (w : Nat)
deriving DecidableEq

/-- A `verible::LintViolation` as produced by this rule: a source location
(line, column of the offending span) and a message. -/
structure Violation where
  line : Nat
  col : Nat
  message : Msg
deriving DecidableEq

/-- The mutable members of `MixedIndentationRule`. -/
structure RuleState where
  indent_use_spaces : Bool
  num_indent_spaces : Nat
  violations_ : List Violation
deriving DecidableEq

/-- Modelled from the spec: `violations_` is a `std::set<verible::LintViolation>`
whose ordering key is the violation's location plus message
(`common/analysis/lint_rule_status.h`, not part of this source slice).
Following the spec's design note it is modelled as an insertion-ordered,
duplicate-free collection keyed by the whole `(location, message)` record:
inserting an element already present leaves the collection unchanged. -/
def insertViolation (st : RuleState) (v : Violation) : RuleState :=
  if v ∈ st.violations_ then st
  else { st with violations_ := st.violations_ ++ [v] }

/-- `c` is a space or a tab: the character set of `find_first_not_of(" \t")`. -/
def spaceTab (c : Char) : Bool := c == ' ' || c == '\t'

/-- `absl::string_view::find_first_not_of`: index of the first character
that does not satisfy `p`, or `none` (`npos`) if every character does. -/
def findFirstNotOf (p : Char → Bool) : List Char → Option Nat
  | [] => none
  | c :: cs => if p c then (findFirstNotOf p cs).map (· + 1) else some 0

/-- The maximal runs of characters satisfying `p` in a segment, with their
start columns (`i` is the column of the segment's first character).  This
is what the `do { find / find_first_not_of } while` loop of
`CheckIndentation` iterates over: each iteration finds the next run start
and then the first position past the run. -/
def wsRuns (p : Char → Bool) : List Char → Nat → List (Nat × List Char)
  | [], _ => []
  | c :: cs, i =>
    if p c then
      match wsRuns p cs (i + 1) with
      | (s, run) :: rs =>
        if s = i + 1 then (i, c :: run) :: rs else (i, [c]) :: (s, run) :: rs
      | [] => [(i, [c])]
    else wsRuns p cs (i + 1)

/-- `MixedIndentationRule::isIndentPure`, checking a whitespace span at
(line `i`, column `c`) against the dominant indentation character and
reporting a mixed-indentation violation if it is impure.  Returns the
purity flag together with the updated state.  The C++ binds
`num_valid_indent_chars = find_first_not_of(indent_use_spaces ? " " : "\\t")`
and tests it against `npos`; `pureIndent` is that test. -/
def pureIndent (b : Bool) (ws : List Char) : Bool :=
  ws.all (fun ch => ch == (if b then ' ' else '\t'))

/-- `MixedIndentationRule::isIndentPure` proper: report a mixed-indentation
violation at (line `i`, column `c`) when the span is impure. -/
def isIndentPure (st : RuleState) (i c : Nat) (ws : List Char) : Bool × RuleState :=
  if pureIndent st.indent_use_spaces ws then (true, st)
  else
    (false, insertViolation st
      ⟨i, c,
        if st.indent_use_spaces then Msg.mixedTabsSpaces0 st.num_indent_spaces
        else Msg.mixedTabsSpaces1⟩)

/-- `MixedIndentationRule::CheckLeadingSpacingIndent`: the leading span's
length must be an exact multiple of `num_indent_spaces`. -/
def CheckLeadingSpacingIndent (st : RuleState) (i c : Nat) (ws : List Char) :
    Bool × RuleState :=
  if ws.length % st.num_indent_spaces ≠ 0 then
    (false, insertViolation st ⟨i, c, Msg.incorrectSpaces st.num_indent_spaces⟩)
  else (true, st)

/-- Loop body of `CheckIndentation` when `indent_use_spaces` holds: a run
of tabs was found starting at column `r.1`; report it if the token there
is `TK_SPACE`. -/
def spacesScanStep (cls : Classifier) (i : Nat) (s : RuleState) (r : Nat × List Char) :
    RuleState :=
  if cls i r.1 = TokenKind.tkSpace then
    insertViolation s ⟨i, r.1, Msg.mixedTabsSpaces2 s.num_indent_spaces⟩
  else s

/-- Loop body of `CheckIndentation` when indenting with tabs: a run of
spaces/tabs was found starting at column `r.1`; if it is longer than one
character and the token there is `TK_SPACE`, run `isIndentPure` on it
(which reports iff the run is not pure tabs). -/
def tabsScanStep (cls : Classifier) (i : Nat) (s : RuleState) (r : Nat × List Char) :
    RuleState :=
  if 1 < r.2.length then
    if cls i r.1 = TokenKind.tkSpace then (isIndentPure s i r.1 r.2).2 else s
  else s

/-- `MixedIndentationRule::CheckIndentation` on one segment of line `i`
whose first character sits at column `col0`.  The C++ `do`/`while` loop
tests the (loop-invariant) member `indent_use_spaces` each iteration and
visits each maximal wrong-kind whitespace run once; here the test is
hoisted and the runs are folded over. -/
def CheckIndentation (cls : Classifier) (i : Nat) (st : RuleState)
    (segment : List Char) (col0 : Nat) : RuleState :=
  if st.indent_use_spaces then
    (wsRuns (· == '\t') segment col0).foldl (spacesScanStep cls i) st
  else
    (wsRuns spaceTab segment col0).foldl (tabsScanStep cls i) st

/-- The profiling state accumulated by `FindFileIndentation`: line-class
counters, the histogram of successive leading-space-width deltas, and the
`last_space_width` / `last_indent` tracking variables. -/
structure ProfState where
  num_lines_starting_with_spaces : Nat
  num_lines_starting_with_tabs : Nat
  indents_histogram : Nat → Nat
  last_space_width : Nat
  last_indent : Nat

/-- The local variables of `FindFileIndentation` at their initial values. -/
def initProf : ProfState := ⟨0, 0, fun _ => 0, 0, 0⟩

/-- Loop body of `FindFileIndentation` for the line at index `i`. -/
def profileLine (cls : Classifier) (i : Nat) (ps : ProfState) (line : List Char) :
    ProfState :=
  if line.isEmpty then ps
  else
    match findFirstNotOf spaceTab line with
    | none => ps
    | some pos =>
      if pos = 0 then ps
      else
        let leading := line.take pos
        if cls i 0 = TokenKind.tkSpace then
          if line.head? = some ' ' then
            let ps1 := { ps with
              num_lines_starting_with_spaces := ps.num_lines_starting_with_spaces + 1 }
            match findFirstNotOf (· == ' ') leading with
            | some _ => ps1
            | none =>
              let n := leading.length
              let indent := ((n : Int) - (ps1.last_space_width : Int)).natAbs
              if indent < 5 then
                { ps1 with
                  indents_histogram := fun j =>
                    if j = (if indent = 0 then ps1.last_indent else indent) then
                      ps1.indents_histogram j + 1
                    else ps1.indents_histogram j,
                  last_space_width := n,
                  last_indent := indent }
              else ps1
          else if line.head? = some '\t' then
            { ps with
              num_lines_starting_with_tabs := ps.num_lines_starting_with_tabs + 1 }
          else ps
        else ps

/-- The line loop of `FindFileIndentation`, threading the line index. -/
def profileLines (cls : Classifier) : Nat → ProfState → List (List Char) → ProfState
  | _, ps, [] => ps
  | i, ps, line :: ls => profileLines cls (i + 1) (profileLine cls i ps line) ls

/-- The profiling pass over the whole file. -/
def computeProfile (cls : Classifier) (lines : List (List Char)) : ProfState :=
  profileLines cls 0 initProf lines

/-- The width-selection loop at the end of `FindFileIndentation`:
`num_indent_spaces = 2; max = 0; for (i = 1; i < 5; i++) if (hist[i] > max) …`. -/
def argmaxLoop (hist : Nat → Nat) : Nat :=
  (([1, 2, 3, 4] : List Nat).foldl
    (fun p i => if hist i > p.1 then (hist i, i) else p) (0, 2)).2

/-- `MixedIndentationRule::FindFileIndentation`: infer the dominant unit
(ties favour spaces) and, for spaces, the indent width. -/
def FindFileIndentation (cls : Classifier) (lines : List (List Char))
    (st : RuleState) : RuleState :=
  let ps := computeProfile cls lines
  let ius := decide (ps.num_lines_starting_with_tabs ≤ ps.num_lines_starting_with_spaces)
  { st with
    indent_use_spaces := ius,
    num_indent_spaces := if ius then argmaxLoop ps.indents_histogram else 2 }

/-- The leading-span part of `ParseIndentation`'s loop body: if the token
at the line start is whitespace, run the purity check and, when it passes
and the file indents with spaces, the width check
(`if (is_pure && indent_use_spaces) CheckLeadingSpacingIndent(...)`). -/
def leadingChecks (cls : Classifier) (i : Nat) (st : RuleState)
    (leading : List Char) : RuleState :=
  if cls i 0 = TokenKind.tkSpace then
    if (isIndentPure st i 0 leading).1 &&
        (isIndentPure st i 0 leading).2.indent_use_spaces then
      (CheckLeadingSpacingIndent (isIndentPure st i 0 leading).2 i 0 leading).2
    else (isIndentPure st i 0 leading).2
  else st

/-- Loop body of `MixedIndentationRule::ParseIndentation` for the line at
index `i`: leading-span purity/width checks, then the body scan on the
rest of the line (`line = line.substr(pos)` before `CheckIndentation`
when a non-empty leading span exists). -/
def parseLine (cls : Classifier) (i : Nat) (st : RuleState) (line : List Char) :
    RuleState :=
  if line.isEmpty then st
  else
    match findFirstNotOf spaceTab line with
    | some pos =>
      if pos = 0 then CheckIndentation cls i st line 0
      else
        CheckIndentation cls i (leadingChecks cls i st (line.take pos))
          (line.drop pos) pos
    | none => CheckIndentation cls i st line 0

/-- The line loop of `MixedIndentationRule::ParseIndentation`. -/
def ParseIndentation (cls : Classifier) : Nat → RuleState → List (List Char) → RuleState
  | _, st, [] => st
  | i, st, line :: ls => ParseIndentation cls (i + 1) (parseLine cls i st line) ls

/-- `MixedIndentationRule::Lint`: the strict two-pass pipeline, profiler
then validator. -/
def Lint (cls : Classifier) (lines : List (List Char)) (st : RuleState) : RuleState :=
  ParseIndentation cls 0 (FindFileIndentation cls lines st) lines

/-- A fresh rule object: no violations recorded.  The profile fields are
written by `Lint` before any use; their initial values are immaterial. -/
def initState : RuleState := ⟨false, 2, []⟩

/-- A rule state whose profile says space indentation of width 2. -/
def stSpaces : RuleState := ⟨true, 2, []⟩

/-- A classifier that reports genuine whitespace everywhere: the common
case for positions inside leading indentation or inter-token gaps. -/
def clsAll : Classifier := fun _ _ => TokenKind.tkSpace

/-! ## Spec-side definitions used to state the claims -/

/-- Formalisation of the spec's line classification: the line is non-empty,
has a non-empty leading whitespace span followed by a non-whitespace
character, and the token at its start is genuine whitespace. -/
def classifiedIndented (cls : Classifier) (i : Nat) (line : List Char) : Bool :=
  !line.isEmpty &&
    match findFirstNotOf spaceTab line with
    | some p => decide (p ≠ 0) && decide (cls i 0 = TokenKind.tkSpace)
    | none => false

/-- The line counts as "starts with spaces" for the majority vote. -/
def startsWithSpace (cls : Classifier) (i : Nat) (line : List Char) : Bool :=
  classifiedIndented cls i line && line.head? == some ' '

/-- The line counts as "starts with tabs" for the majority vote. -/
def startsWithTab (cls : Classifier) (i : Nat) (line : List Char) : Bool :=
  classifiedIndented cls i line && line.head? == some '\t'

/-- Count the lines satisfying an index-aware predicate, starting at line
index `i`. -/
def countFrom (p : Nat → List Char → Bool) : Nat → List (List Char) → Nat
  | _, [] => 0
  | i, l :: ls => (if p i l then 1 else 0) + countFrom p (i + 1) ls

/-- The leading-space width the line contributes to the histogram, if any:
the line must be classified, start with a space, and its whole leading
span must consist of spaces ("full-leading-space line"). -/
def fullSpaceWidth (cls : Classifier) (i : Nat) (line : List Char) : Option Nat :=
  if line.isEmpty then none
  else
    match findFirstNotOf spaceTab line with
    | none => none
    | some pos =>
      if pos = 0 then none
      else if cls i 0 = TokenKind.tkSpace then
        if line.head? = some ' ' then
          match findFirstNotOf (· == ' ') (line.take pos) with
          | some _ => none
          | none => some (line.take pos).length
        else none
      else none

/-- The sequence of leading-space widths of the file's full-leading-space
lines, in order, starting at line index `i`. -/
def fullSpaceWidths (cls : Classifier) : Nat → List (List Char) → List Nat
  | _, [] => []
  | i, l :: ls =>
    match fullSpaceWidth cls i l with
    | some w => w :: fullSpaceWidths cls (i + 1) ls
    | none => fullSpaceWidths cls (i + 1) ls

/-- Accumulator for a histogram of width transitions: the reference width,
the bin of the last recorded transition, and the histogram itself. -/
structure HistAcc where
  lastWidth : Nat
  lastBin : Nat
  hist : Nat → Nat

/-- One width transition as the code performs it: the absolute difference
from the reference width is recorded only when it is below 5 (larger
differences are discarded and leave the whole accumulator unchanged); a
difference of 0 is folded into the bin of the previous recorded
transition, which may itself be bin 0. -/
def histStep (a : HistAcc) (w : Nat) : HistAcc :=
  let d := ((w : Int) - (a.lastWidth : Int)).natAbs
  if d < 5 then
    ⟨w, d,
      fun j => if j = (if d = 0 then a.lastBin else d) then a.hist j + 1
               else a.hist j⟩
  else a

/-- One width transition as the claim words it: the absolute difference is
clipped to at most 4 and that bin is always incremented, a difference of 0
being folded into the bin that was last nonzero. -/
def claimHistStep (a : HistAcc) (w : Nat) : HistAcc :=
  let d := min (((w : Int) - (a.lastWidth : Int)).natAbs) 4
  if d = 0 then
    ⟨w, a.lastBin, fun j => if j = a.lastBin then a.hist j + 1 else a.hist j⟩
  else
    ⟨w, d, fun j => if j = d then a.hist j + 1 else a.hist j⟩

/-- The claim's histogram over a width sequence (reference width starts
at 0, mirroring the code's initial `last_space_width`). -/
def claimHist (ws : List Nat) : HistAcc :=
  ws.foldl claimHistStep ⟨0, 0, fun _ => 0⟩

/-- The line has no leading indentation to check: it is empty, consists
entirely of whitespace, or starts with a non-whitespace character. -/
def noLeadingIndent (line : List Char) : Bool :=
  line.isEmpty ||
    match findFirstNotOf spaceTab line with
    | some p => decide (p = 0)
    | none => true


/-- The (reference width, last bin, histogram) part of the profiling
state, as a transition accumulator. -/
def profHistAcc (ps : ProfState) : HistAcc :=
  ⟨ps.last_space_width, ps.last_indent, ps.indents_histogram⟩

/-- A classifier that reports a string-literal token everywhere: models a
position lying inside a quoted string. -/
def clsNone : Classifier := fun _ _ => TokenKind.tkString

/-- A rule state already holding one recorded violation (used to exercise
duplicate insertion). -/
def stW : RuleState := ⟨true, 2, [⟨0, 0, Msg.mixedTabsSpaces1⟩]⟩

/-- A file whose full-leading-space widths are 2, 4, 4, 4, 11: the last
transition has delta 7 and the two zero-delta transitions follow a
recorded delta. -/
def exLines3 : List (List Char) :=
  [[' ', ' ', 'a'],
   [' ', ' ', ' ', ' ', 'b'],
   [' ', ' ', ' ', ' ', 'c'],
   [' ', ' ', ' ', ' ', 'd'],
   [' ', ' ', ' ', ' ', ' ', ' ', ' ', ' ', ' ', ' ', ' ', 'e']]

/-! ## Lemmas about the violation sink -/

theorem insertViolation_ius (st : RuleState) (v : Violation) :
    (insertViolation st v).indent_use_spaces = st.indent_use_spaces := by
  unfold insertViolation; split <;> rfl

theorem insertViolation_num (st : RuleState) (v : Violation) :
    (insertViolation st v).num_indent_spaces = st.num_indent_spaces := by
  unfold insertViolation; split <;> rfl

theorem mem_insertViolation (st : RuleState) (u v : Violation) :
    v ∈ (insertViolation st u).violations_ ↔ v ∈ st.violations_ ∨ v = u := by
  unfold insertViolation
  split
  next h => exact ⟨Or.inl, fun hv => hv.elim id (fun e => e ▸ h)⟩
  next h => simp [List.mem_append]

theorem self_mem_insertViolation (st : RuleState) (u : Violation) :
    u ∈ (insertViolation st u).violations_ :=
  (mem_insertViolation st u u).mpr (Or.inr rfl)

theorem insertViolation_mono (st : RuleState) (u v : Violation)
    (h : v ∈ st.violations_) : v ∈ (insertViolation st u).violations_ :=
  (mem_insertViolation st u v).mpr (Or.inl h)

theorem insertViolation_absorb (st : RuleState) (v : Violation)
    (h : v ∈ st.violations_) : insertViolation st v = st := by
  unfold insertViolation; simp [h]

theorem insertViolation_nodup (st : RuleState) (u : Violation)
    (h : st.violations_.Nodup) : (insertViolation st u).violations_.Nodup := by
  unfold insertViolation
  split
  next => exact h
  next hn => simp [List.nodup_append, h, hn]

/-! ## Lemmas about the body-scan steps -/

theorem isIndentPure_snd_ius (st : RuleState) (i c : Nat) (ws : List Char) :
    (isIndentPure st i c ws).2.indent_use_spaces = st.indent_use_spaces := by
  by_cases hp : pureIndent st.indent_use_spaces ws <;>
    simp [isIndentPure, hp, insertViolation_ius]

theorem isIndentPure_snd_num (st : RuleState) (i c : Nat) (ws : List Char) :
    (isIndentPure st i c ws).2.num_indent_spaces = st.num_indent_spaces := by
  by_cases hp : pureIndent st.indent_use_spaces ws <;>
    simp [isIndentPure, hp, insertViolation_num]

theorem isIndentPure_snd_mono (st : RuleState) (i c : Nat) (ws : List Char)
    (v : Violation) (h : v ∈ st.violations_) :
    v ∈ (isIndentPure st i c ws).2.violations_ := by
  by_cases hp : pureIndent st.indent_use_spaces ws <;>
    simp [isIndentPure, hp]
  · exact h
  · exact insertViolation_mono _ _ _ h

theorem isIndentPure_snd_nodup (st : RuleState) (i c : Nat) (ws : List Char)
    (h : st.violations_.Nodup) : (isIndentPure st i c ws).2.violations_.Nodup := by
  by_cases hp : pureIndent st.indent_use_spaces ws <;>
    simp [isIndentPure, hp]
  · exact h
  · exact insertViolation_nodup _ _ h

/-- The properties shared by both body-scan loop bodies: they preserve the
profile fields, only add violations, keep the collection duplicate-free,
and are absorbed by any state (with equal profile fields) that already
contains everything they can produce. -/
def SinkStep (step : RuleState → Nat × List Char → RuleState) : Prop :=
  (∀ s r, (step s r).indent_use_spaces = s.indent_use_spaces) ∧
  (∀ s r, (step s r).num_indent_spaces = s.num_indent_spaces) ∧
  (∀ s r v, v ∈ s.violations_ → v ∈ (step s r).violations_) ∧
  (∀ s r, s.violations_.Nodup → (step s r).violations_.Nodup) ∧
  (∀ s s' r, s.indent_use_spaces = s'.indent_use_spaces →
    s.num_indent_spaces = s'.num_indent_spaces →
    (∀ v, v ∈ (step s r).violations_ → v ∈ s'.violations_) → step s' r = s')

theorem sinkStep_spaces (cls : Classifier) (i : Nat) :
    SinkStep (spacesScanStep cls i) := by
  refine ⟨?_, ?_, ?_, ?_, ?_⟩
  · intro s r; unfold spacesScanStep; split <;> simp [insertViolation_ius]
  · intro s r; unfold spacesScanStep; split <;> simp [insertViolation_num]
  · intro s r v h; unfold spacesScanStep; split
    · exact insertViolation_mono _ _ _ h
    · exact h
  · intro s r h; unfold spacesScanStep; split
    · exact insertViolation_nodup _ _ h
    · exact h
  · intro s s' r hi hn habs
    unfold spacesScanStep at habs ⊢
    split
    next hcls =>
      refine insertViolation_absorb _ _ ?_
      apply habs
      rw [if_pos hcls, hn]
      exact self_mem_insertViolation _ _
    next => rfl

theorem sinkStep_tabs (cls : Classifier) (i : Nat) :
    SinkStep (tabsScanStep cls i) := by
  refine ⟨?_, ?_, ?_, ?_, ?_⟩
  · intro s r; unfold tabsScanStep; split <;> [skip; rfl]
    split <;> [exact isIndentPure_snd_ius _ _ _ _; rfl]
  · intro s r; unfold tabsScanStep; split <;> [skip; rfl]
    split <;> [exact isIndentPure_snd_num _ _ _ _; rfl]
  · intro s r v h; unfold tabsScanStep; split <;> [skip; exact h]
    split
    · exact isIndentPure_snd_mono _ _ _ _ _ h
    · exact h
  · intro s r h; unfold tabsScanStep; split <;> [skip; exact h]
    split
    · exact isIndentPure_snd_nodup _ _ _ _ h
    · exact h
  · intro s s' r hi hn habs
    unfold tabsScanStep at habs ⊢
    split <;> [skip; rfl]
    next hlen =>
      split <;> [skip; rfl]
      next hcls =>
        rw [if_pos hlen, if_pos hcls] at habs
        unfold isIndentPure at habs ⊢
        rw [← hi]
        by_cases hp : pureIndent s.indent_use_spaces r.2
        · rw [if_pos hp]
        · rw [if_neg hp] at habs ⊢
          refine insertViolation_absorb _ _ ?_
          apply habs
          rw [hn, hi]
          exact self_mem_insertViolation _ _

/-! ## Generic lemmas about folding a body-scan step over the runs -/

theorem foldl_sink_ius {step : RuleState → Nat × List Char → RuleState}
    (h : SinkStep step) (rs : List (Nat × List Char)) (st : RuleState) :
    (rs.foldl step st).indent_use_spaces = st.indent_use_spaces := by
  induction rs generalizing st with
  | nil => rfl
  | cons r rs ih => rw [List.foldl_cons, ih, h.1]

theorem foldl_sink_num {step : RuleState → Nat × List Char → RuleState}
    (h : SinkStep step) (rs : List (Nat × List Char)) (st : RuleState) :
    (rs.foldl step st).num_indent_spaces = st.num_indent_spaces := by
  induction rs generalizing st with
  | nil => rfl
  | cons r rs ih => rw [List.foldl_cons, ih, h.2.1]

theorem foldl_sink_mono {step : RuleState → Nat × List Char → RuleState}
    (h : SinkStep step) (rs : List (Nat × List Char)) (st : RuleState)
    (v : Violation) (hv : v ∈ st.violations_) :
    v ∈ (rs.foldl step st).violations_ := by
  induction rs generalizing st with
  | nil => exact hv
  | cons r rs ih => exact ih _ (h.2.2.1 _ _ _ hv)

theorem foldl_sink_nodup {step : RuleState → Nat × List Char → RuleState}
    (h : SinkStep step) (rs : List (Nat × List Char)) (st : RuleState)
    (hn : st.violations_.Nodup) : (rs.foldl step st).violations_.Nodup := by
  induction rs generalizing st with
  | nil => exact hn
  | cons r rs ih => exact ih _ (h.2.2.2.1 _ _ hn)

theorem foldl_sink_absorb {step : RuleState → Nat × List Char → RuleState}
    (h : SinkStep step) (rs : List (Nat × List Char)) (st st' : RuleState)
    (hi : st.indent_use_spaces = st'.indent_use_spaces)
    (hn : st.num_indent_spaces = st'.num_indent_spaces)
    (habs : ∀ v, v ∈ (rs.foldl step st).violations_ → v ∈ st'.violations_) :
    rs.foldl step st' = st' := by
  induction rs generalizing st st' with
  | nil => rfl
  | cons r rs ih =>
    rw [List.foldl_cons] at habs ⊢
    have hstep : step st' r = st' := by
      refine h.2.2.2.2 st st' r hi hn ?_
      intro v hv
      exact habs v (foldl_sink_mono h rs (step st r) v hv)
    rw [hstep]
    exact ih (step st r) st' (by rw [h.1, hi]) (by rw [h.2.1, hn]) habs

theorem foldl_sink_mem_new {step : RuleState → Nat × List Char → RuleState}
    (h : SinkStep step) (P : Violation → Prop) (b : Bool) (n : Nat)
    (hstep : ∀ s r v, s.indent_use_spaces = b → s.num_indent_spaces = n →
      v ∈ (step s r).violations_ → v ∈ s.violations_ ∨ P v)
    (rs : List (Nat × List Char)) (st : RuleState) (v : Violation)
    (hb : st.indent_use_spaces = b) (hn : st.num_indent_spaces = n)
    (hv : v ∈ (rs.foldl step st).violations_) :
    v ∈ st.violations_ ∨ P v := by
  induction rs generalizing st with
  | nil => exact Or.inl hv
  | cons r rs ih =>
    rw [List.foldl_cons] at hv
    rcases ih (step st r) (by rw [h.1, hb]) (by rw [h.2.1, hn]) hv with h1 | h1
    · exact hstep st r v hb hn h1
    · exact Or.inr h1

/-! ## Lemmas about `CheckIndentation` -/

theorem CheckIndentation_ius (cls : Classifier) (i : Nat) (st : RuleState)
    (seg : List Char) (c0 : Nat) :
    (CheckIndentation cls i st seg c0).indent_use_spaces = st.indent_use_spaces := by
  unfold CheckIndentation
  split <;> [exact foldl_sink_ius (sinkStep_spaces cls i) _ _;
             exact foldl_sink_ius (sinkStep_tabs cls i) _ _]

theorem CheckIndentation_num (cls : Classifier) (i : Nat) (st : RuleState)
    (seg : List Char) (c0 : Nat) :
    (CheckIndentation cls i st seg c0).num_indent_spaces = st.num_indent_spaces := by
  unfold CheckIndentation
  split <;> [exact foldl_sink_num (sinkStep_spaces cls i) _ _;
             exact foldl_sink_num (sinkStep_tabs cls i) _ _]

theorem CheckIndentation_mono (cls : Classifier) (i : Nat) (st : RuleState)
    (seg : List Char) (c0 : Nat) (v : Violation) (hv : v ∈ st.violations_) :
    v ∈ (CheckIndentation cls i st seg c0).violations_ := by
  unfold CheckIndentation
  split <;> [exact foldl_sink_mono (sinkStep_spaces cls i) _ _ _ hv;
             exact foldl_sink_mono (sinkStep_tabs cls i) _ _ _ hv]

theorem CheckIndentation_nodup (cls : Classifier) (i : Nat) (st : RuleState)
    (seg : List Char) (c0 : Nat) (hn : st.violations_.Nodup) :
    (CheckIndentation cls i st seg c0).violations_.Nodup := by
  unfold CheckIndentation
  split <;> [exact foldl_sink_nodup (sinkStep_spaces cls i) _ _ hn;
             exact foldl_sink_nodup (sinkStep_tabs cls i) _ _ hn]

theorem CheckIndentation_absorb (cls : Classifier) (i : Nat) (st st' : RuleState)
    (seg : List Char) (c0 : Nat)
    (hi : st.indent_use_spaces = st'.indent_use_spaces)
    (hn : st.num_indent_spaces = st'.num_indent_spaces)
    (habs : ∀ v, v ∈ (CheckIndentation cls i st seg c0).violations_ →
      v ∈ st'.violations_) :
    CheckIndentation cls i st' seg c0 = st' := by
  unfold CheckIndentation at habs ⊢
  rw [← hi]
  split at habs <;> rename_i hsp
  · rw [if_pos hsp]
    exact foldl_sink_absorb (sinkStep_spaces cls i) _ st st' hi hn habs
  · rw [if_neg hsp]
    exact foldl_sink_absorb (sinkStep_tabs cls i) _ st st' hi hn habs

theorem spacesScanStep_mem_new (cls : Classifier) (i : Nat) (n : Nat)
    (s : RuleState) (r : Nat × List Char) (v : Violation)
    (hb : s.indent_use_spaces = true) (hn : s.num_indent_spaces = n)
    (hv : v ∈ (spacesScanStep cls i s r).violations_) :
    v ∈ s.violations_ ∨ (v.line = i ∧ cls i v.col = TokenKind.tkSpace ∧
      (v.message = Msg.mixedTabsSpaces2 n ∨ v.message = Msg.mixedTabsSpaces1)) := by
  unfold spacesScanStep at hv
  split at hv <;> rename_i hcls
  · rcases (mem_insertViolation _ _ _).mp hv with h | rfl
    · exact Or.inl h
    · exact Or.inr ⟨rfl, hcls, Or.inl (by rw [hn])⟩
  · exact Or.inl hv

theorem tabsScanStep_mem_new (cls : Classifier) (i : Nat) (n : Nat)
    (s : RuleState) (r : Nat × List Char) (v : Violation)
    (hb : s.indent_use_spaces = false) (hn : s.num_indent_spaces = n)
    (hv : v ∈ (tabsScanStep cls i s r).violations_) :
    v ∈ s.violations_ ∨ (v.line = i ∧ cls i v.col = TokenKind.tkSpace ∧
      (v.message = Msg.mixedTabsSpaces2 n ∨ v.message = Msg.mixedTabsSpaces1)) := by
  unfold tabsScanStep at hv
  split at hv <;> [skip; exact Or.inl hv]
  split at hv <;> rename_i hcls
  · unfold isIndentPure at hv
    rw [hb] at hv
    by_cases hp : pureIndent false r.2
    · rw [if_pos hp] at hv
      exact Or.inl hv
    · rw [if_neg hp] at hv
      rcases (mem_insertViolation _ _ _).mp hv with h | rfl
      · exact Or.inl h
      · exact Or.inr ⟨rfl, hcls, Or.inr rfl⟩
  · exact Or.inl hv

theorem mem_CheckIndentation_new (cls : Classifier) (i : Nat) (st : RuleState)
    (seg : List Char) (c0 : Nat) (v : Violation)
    (hv : v ∈ (CheckIndentation cls i st seg c0).violations_) :
    v ∈ st.violations_ ∨ (v.line = i ∧ cls i v.col = TokenKind.tkSpace ∧
      (v.message = Msg.mixedTabsSpaces2 st.num_indent_spaces ∨
        v.message = Msg.mixedTabsSpaces1)) := by
  unfold CheckIndentation at hv
  split at hv <;> rename_i hsp
  · exact foldl_sink_mem_new (sinkStep_spaces cls i) _ true st.num_indent_spaces
      (fun s r v hb hn => spacesScanStep_mem_new cls i _ s r v hb hn) _ st v hsp rfl hv
  · exact foldl_sink_mem_new (sinkStep_tabs cls i) _ false st.num_indent_spaces
      (fun s r v hb hn => tabsScanStep_mem_new cls i _ s r v hb hn) _ st v
      (Bool.not_eq_true _ ▸ hsp) rfl hv

theorem mem_tabsScanStep (cls : Classifier) (i : Nat) (st : RuleState)
    (r : Nat × List Char) (v : Violation) (hb : st.indent_use_spaces = false) :
    v ∈ (tabsScanStep cls i st r).violations_ ↔
      v ∈ st.violations_ ∨ (1 < r.2.length ∧ cls i r.1 = TokenKind.tkSpace ∧
        ¬ r.2.all (· == '\t') = true ∧ v = ⟨i, r.1, Msg.mixedTabsSpaces1⟩) := by
  unfold tabsScanStep
  by_cases hlen : 1 < r.2.length
  · rw [if_pos hlen]
    by_cases hcls : cls i r.1 = TokenKind.tkSpace
    · rw [if_pos hcls]
      unfold isIndentPure
      rw [hb]
      by_cases hp : pureIndent false r.2
      · rw [if_pos hp]
        have hall : r.2.all (· == '\t') = true := hp
        simp [hall]
      · rw [if_neg hp]
        have hall : ¬ r.2.all (· == '\t') = true := hp
        rw [mem_insertViolation]
        simp [hlen, hcls, hall]
    · rw [if_neg hcls]
      simp [hcls]
  · rw [if_neg hlen]
    simp [hlen]

theorem mem_foldl_tabsScan (cls : Classifier) (i : Nat)
    (rs : List (Nat × List Char)) (st : RuleState) (v : Violation)
    (hb : st.indent_use_spaces = false) :
    v ∈ (rs.foldl (tabsScanStep cls i) st).violations_ ↔
      v ∈ st.violations_ ∨ ∃ r ∈ rs, 1 < r.2.length ∧
        cls i r.1 = TokenKind.tkSpace ∧ ¬ r.2.all (· == '\t') = true ∧
        v = ⟨i, r.1, Msg.mixedTabsSpaces1⟩ := by
  induction rs generalizing st with
  | nil => simp
  | cons r rs ih =>
    rw [List.foldl_cons,
        ih _ (by rw [(sinkStep_tabs cls i).1, hb]),
        mem_tabsScanStep cls i st r v hb]
    constructor
    · rintro ((h | h) | ⟨r', hr', h⟩)
      · exact Or.inl h
      · exact Or.inr ⟨r, List.mem_cons_self r rs, h⟩
      · exact Or.inr ⟨r', List.mem_cons_of_mem _ hr', h⟩
    · rintro (h | ⟨r', hr', h⟩)
      · exact Or.inl (Or.inl h)
      · rcases List.mem_cons.mp hr' with rfl | hr'
        · exact Or.inl (Or.inr h)
        · exact Or.inr ⟨r', hr', h⟩

theorem wsRuns_sound (p : Char → Bool) (seg : List Char) (i s : Nat)
    (run : List Char) (h : (s, run) ∈ wsRuns p seg i) :
    run ≠ [] ∧ run.all p = true := by
  induction seg generalizing i s run with
  | nil => simp [wsRuns] at h
  | cons c cs ih =>
    unfold wsRuns at h
    split at h <;> rename_i hpc
    · split at h <;> rename_i heq
      · rename_i s' run' rs
        split at h <;> rename_i hmerge
        · rcases List.mem_cons.mp h with hh | hh
          · have hr : run = c :: run' := congrArg Prod.snd hh
            subst hr
            have h' := ih (i + 1) s' run' (heq ▸ List.mem_cons_self _ _)
            simp [hpc, h'.2]
          · exact ih (i + 1) s run (heq ▸ List.mem_cons_of_mem _ hh)
        · rcases List.mem_cons.mp h with hh | hh
          · have hr : run = [c] := congrArg Prod.snd hh
            subst hr
            simp [hpc]
          · exact ih (i + 1) s run (heq ▸ hh)
      · have hh := List.mem_singleton.mp h
        have hr : run = [c] := congrArg Prod.snd hh
        subst hr
        simp [hpc]
    · exact ih (i + 1) s run h

/-! ## Lemmas about the leading-span checks -/

theorem isIndentPure_of_pure (st : RuleState) (i c : Nat) (ws : List Char)
    (hp : pureIndent st.indent_use_spaces ws = true) :
    isIndentPure st i c ws = (true, st) := by
  unfold isIndentPure; rw [if_pos hp]

theorem isIndentPure_of_impure (st : RuleState) (i c : Nat) (ws : List Char)
    (hp : ¬ pureIndent st.indent_use_spaces ws = true) :
    isIndentPure st i c ws =
      (false, insertViolation st
        ⟨i, c,
          if st.indent_use_spaces then Msg.mixedTabsSpaces0 st.num_indent_spaces
          else Msg.mixedTabsSpaces1⟩) := by
  unfold isIndentPure; rw [if_neg hp]

theorem CheckLeadingSpacingIndent_snd_ius (st : RuleState) (i c : Nat)
    (ws : List Char) :
    (CheckLeadingSpacingIndent st i c ws).2.indent_use_spaces =
      st.indent_use_spaces := by
  unfold CheckLeadingSpacingIndent; split <;> simp [insertViolation_ius]

theorem CheckLeadingSpacingIndent_snd_num (st : RuleState) (i c : Nat)
    (ws : List Char) :
    (CheckLeadingSpacingIndent st i c ws).2.num_indent_spaces =
      st.num_indent_spaces := by
  unfold CheckLeadingSpacingIndent; split <;> simp [insertViolation_num]

theorem CheckLeadingSpacingIndent_snd_mono (st : RuleState) (i c : Nat)
    (ws : List Char) (v : Violation) (hv : v ∈ st.violations_) :
    v ∈ (CheckLeadingSpacingIndent st i c ws).2.violations_ := by
  unfold CheckLeadingSpacingIndent; split
  · exact insertViolation_mono _ _ _ hv
  · exact hv

theorem CheckLeadingSpacingIndent_snd_nodup (st : RuleState) (i c : Nat)
    (ws : List Char) (hn : st.violations_.Nodup) :
    (CheckLeadingSpacingIndent st i c ws).2.violations_.Nodup := by
  unfold CheckLeadingSpacingIndent; split
  · exact insertViolation_nodup _ _ hn
  · exact hn

theorem leadingChecks_ius (cls : Classifier) (i : Nat) (st : RuleState)
    (leading : List Char) :
    (leadingChecks cls i st leading).indent_use_spaces = st.indent_use_spaces := by
  unfold leadingChecks
  split <;> [skip; rfl]
  split
  · rw [CheckLeadingSpacingIndent_snd_ius, isIndentPure_snd_ius]
  · rw [isIndentPure_snd_ius]

theorem leadingChecks_num (cls : Classifier) (i : Nat) (st : RuleState)
    (leading : List Char) :
    (leadingChecks cls i st leading).num_indent_spaces = st.num_indent_spaces := by
  unfold leadingChecks
  split <;> [skip; rfl]
  split
  · rw [CheckLeadingSpacingIndent_snd_num, isIndentPure_snd_num]
  · rw [isIndentPure_snd_num]

theorem leadingChecks_mono (cls : Classifier) (i : Nat) (st : RuleState)
    (leading : List Char) (v : Violation) (hv : v ∈ st.violations_) :
    v ∈ (leadingChecks cls i st leading).violations_ := by
  unfold leadingChecks
  split <;> [skip; exact hv]
  split
  · exact CheckLeadingSpacingIndent_snd_mono _ _ _ _ _
      (isIndentPure_snd_mono _ _ _ _ _ hv)
  · exact isIndentPure_snd_mono _ _ _ _ _ hv

theorem leadingChecks_nodup (cls : Classifier) (i : Nat) (st : RuleState)
    (leading : List Char) (hn : st.violations_.Nodup) :
    (leadingChecks cls i st leading).violations_.Nodup := by
  unfold leadingChecks
  split <;> [skip; exact hn]
  split
  · exact CheckLeadingSpacingIndent_snd_nodup _ _ _ _
      (isIndentPure_snd_nodup _ _ _ _ hn)
  · exact isIndentPure_snd_nodup _ _ _ _ hn

theorem mem_leadingChecks (cls : Classifier) (i : Nat) (st : RuleState)
    (leading : List Char) (v : Violation)
    (hcls : cls i 0 = TokenKind.tkSpace) :
    v ∈ (leadingChecks cls i st leading).violations_ ↔
      v ∈ st.violations_ ∨
      (¬ pureIndent st.indent_use_spaces leading = true ∧
        v = ⟨i, 0,
          if st.indent_use_spaces then Msg.mixedTabsSpaces0 st.num_indent_spaces
          else Msg.mixedTabsSpaces1⟩) ∨
      (pureIndent st.indent_use_spaces leading = true ∧
        st.indent_use_spaces = true ∧
        leading.length % st.num_indent_spaces ≠ 0 ∧
        v = ⟨i, 0, Msg.incorrectSpaces st.num_indent_spaces⟩) := by
  unfold leadingChecks
  rw [if_pos hcls]
  by_cases hp : pureIndent st.indent_use_spaces leading = true
  · rw [isIndentPure_of_pure st i 0 leading hp]
    by_cases hius : st.indent_use_spaces = true
    · rw [hius] at hp
      by_cases hmod : leading.length % st.num_indent_spaces ≠ 0
      · simp [CheckLeadingSpacingIndent, mem_insertViolation, hp, hius, hmod]
      · simp [CheckLeadingSpacingIndent, mem_insertViolation, hp, hius, hmod]
    · have hf : st.indent_use_spaces = false := Bool.not_eq_true _ ▸ hius
      rw [hf] at hp
      simp [hf, hp]
  · rw [isIndentPure_of_impure st i 0 leading hp]
    by_cases hius : st.indent_use_spaces = true
    · rw [hius] at hp
      simp [mem_insertViolation, hp, hius]
    · have hf : st.indent_use_spaces = false := Bool.not_eq_true _ ▸ hius
      rw [hf] at hp
      simp [mem_insertViolation, hp, hf]

theorem leadingChecks_absorb (cls : Classifier) (i : Nat) (st st' : RuleState)
    (leading : List Char)
    (hi : st.indent_use_spaces = st'.indent_use_spaces)
    (hn : st.num_indent_spaces = st'.num_indent_spaces)
    (habs : ∀ v, v ∈ (leadingChecks cls i st leading).violations_ →
      v ∈ st'.violations_) :
    leadingChecks cls i st' leading = st' := by
  by_cases hcls : cls i 0 = TokenKind.tkSpace
  · unfold leadingChecks
    rw [if_pos hcls]
    by_cases hp' : pureIndent st'.indent_use_spaces leading = true
    · rw [isIndentPure_of_pure st' i 0 leading hp']
      dsimp only
      by_cases hius' : st'.indent_use_spaces = true
      · rw [hius']
        simp only [Bool.true_and]
        rw [if_pos trivial]
        unfold CheckLeadingSpacingIndent
        by_cases hmod : leading.length % st'.num_indent_spaces ≠ 0
        · rw [if_pos hmod]
          refine insertViolation_absorb _ _ ?_
          apply habs
          rw [mem_leadingChecks cls i st leading _ hcls]
          refine Or.inr (Or.inr ⟨?_, ?_, ?_, ?_⟩)
          · rw [hi]; exact hp'
          · rw [hi]; exact hius'
          · rw [hn]; exact hmod
          · rw [hn]
        · rw [if_neg hmod]
      · have hf : st'.indent_use_spaces = false := Bool.not_eq_true _ ▸ hius'
        rw [hf]
        simp
    · rw [isIndentPure_of_impure st' i 0 leading hp']
      dsimp only
      simp only [Bool.false_and]
      rw [if_neg Bool.false_ne_true]
      refine insertViolation_absorb _ _ ?_
      apply habs
      rw [mem_leadingChecks cls i st leading _ hcls]
      refine Or.inr (Or.inl ⟨?_, ?_⟩)
      · rw [hi]; exact hp'
      · rw [hi, hn]
  · unfold leadingChecks; rw [if_neg hcls]

/-! ## Lemmas about `parseLine` and `ParseIndentation` -/

theorem parseLine_ius (cls : Classifier) (i : Nat) (st : RuleState)
    (line : List Char) :
    (parseLine cls i st line).indent_use_spaces = st.indent_use_spaces := by
  unfold parseLine
  split <;> [rfl; skip]
  split
  · split
    · exact CheckIndentation_ius _ _ _ _ _
    · rw [CheckIndentation_ius, leadingChecks_ius]
  · exact CheckIndentation_ius _ _ _ _ _

theorem parseLine_num (cls : Classifier) (i : Nat) (st : RuleState)
    (line : List Char) :
    (parseLine cls i st line).num_indent_spaces = st.num_indent_spaces := by
  unfold parseLine
  split <;> [rfl; skip]
  split
  · split
    · exact CheckIndentation_num _ _ _ _ _
    · rw [CheckIndentation_num, leadingChecks_num]
  · exact CheckIndentation_num _ _ _ _ _

theorem parseLine_mono (cls : Classifier) (i : Nat) (st : RuleState)
    (line : List Char) (v : Violation) (hv : v ∈ st.violations_) :
    v ∈ (parseLine cls i st line).violations_ := by
  unfold parseLine
  split <;> [exact hv; skip]
  split
  · split
    · exact CheckIndentation_mono _ _ _ _ _ _ hv
    · exact CheckIndentation_mono _ _ _ _ _ _ (leadingChecks_mono _ _ _ _ _ hv)
  · exact CheckIndentation_mono _ _ _ _ _ _ hv

theorem parseLine_nodup (cls : Classifier) (i : Nat) (st : RuleState)
    (line : List Char) (hn : st.violations_.Nodup) :
    (parseLine cls i st line).violations_.Nodup := by
  unfold parseLine
  split <;> [exact hn; skip]
  split
  · split
    · exact CheckIndentation_nodup _ _ _ _ _ hn
    · exact CheckIndentation_nodup _ _ _ _ _ (leadingChecks_nodup _ _ _ _ hn)
  · exact CheckIndentation_nodup _ _ _ _ _ hn

theorem parseLine_absorb (cls : Classifier) (i : Nat) (st st' : RuleState)
    (line : List Char)
    (hi : st.indent_use_spaces = st'.indent_use_spaces)
    (hn : st.num_indent_spaces = st'.num_indent_spaces)
    (habs : ∀ v, v ∈ (parseLine cls i st line).violations_ → v ∈ st'.violations_) :
    parseLine cls i st' line = st' := by
  unfold parseLine at habs ⊢
  by_cases he : line.isEmpty
  · rw [if_pos he]
  · rw [if_neg he] at habs ⊢
    cases heq : findFirstNotOf spaceTab line with
    | none =>
      simp only [heq] at habs ⊢
      exact CheckIndentation_absorb cls i st st' line 0 hi hn habs
    | some pos =>
      simp only [heq] at habs ⊢
      by_cases hpos : pos = 0
      · rw [if_pos hpos] at habs ⊢
        exact CheckIndentation_absorb cls i st st' line 0 hi hn habs
      · rw [if_neg hpos] at habs ⊢
        have hlc : leadingChecks cls i st' (line.take pos) = st' :=
          leadingChecks_absorb cls i st st' (line.take pos) hi hn
            (fun v hv => habs v (CheckIndentation_mono cls i _ _ _ _ hv))
        rw [hlc]
        refine CheckIndentation_absorb cls i
          (leadingChecks cls i st (line.take pos)) st' (line.drop pos) pos ?_ ?_ habs
        · rw [leadingChecks_ius, hi]
        · rw [leadingChecks_num, hn]

theorem ParseIndentation_ius (cls : Classifier) (ls : List (List Char))
    (idx : Nat) (st : RuleState) :
    (ParseIndentation cls idx st ls).indent_use_spaces = st.indent_use_spaces := by
  induction ls generalizing idx st with
  | nil => rfl
  | cons l ls ih => rw [ParseIndentation, ih, parseLine_ius]

theorem ParseIndentation_num (cls : Classifier) (ls : List (List Char))
    (idx : Nat) (st : RuleState) :
    (ParseIndentation cls idx st ls).num_indent_spaces = st.num_indent_spaces := by
  induction ls generalizing idx st with
  | nil => rfl
  | cons l ls ih => rw [ParseIndentation, ih, parseLine_num]

theorem ParseIndentation_mono (cls : Classifier) (ls : List (List Char))
    (idx : Nat) (st : RuleState) (v : Violation) (hv : v ∈ st.violations_) :
    v ∈ (ParseIndentation cls idx st ls).violations_ := by
  induction ls generalizing idx st with
  | nil => exact hv
  | cons l ls ih => exact ih _ _ (parseLine_mono _ _ _ _ _ hv)

theorem ParseIndentation_nodup (cls : Classifier) (ls : List (List Char))
    (idx : Nat) (st : RuleState) (hn : st.violations_.Nodup) :
    (ParseIndentation cls idx st ls).violations_.Nodup := by
  induction ls generalizing idx st with
  | nil => exact hn
  | cons l ls ih => exact ih _ _ (parseLine_nodup _ _ _ _ hn)

theorem ParseIndentation_absorb (cls : Classifier) (ls : List (List Char))
    (idx : Nat) (st st' : RuleState)
    (hi : st.indent_use_spaces = st'.indent_use_spaces)
    (hn : st.num_indent_spaces = st'.num_indent_spaces)
    (habs : ∀ v, v ∈ (ParseIndentation cls idx st ls).violations_ →
      v ∈ st'.violations_) :
    ParseIndentation cls idx st' ls = st' := by
  induction ls generalizing idx st st' with
  | nil => rfl
  | cons l ls ih =>
    rw [ParseIndentation] at habs ⊢
    have hpl : parseLine cls idx st' l = st' :=
      parseLine_absorb cls idx st st' l hi hn
        (fun v hv => habs v (ParseIndentation_mono cls ls _ _ v hv))
    rw [hpl]
    exact ih _ (parseLine cls idx st l) st'
      (by rw [parseLine_ius, hi]) (by rw [parseLine_num, hn]) habs

theorem parseLine_noLeading (cls : Classifier) (i : Nat) (st : RuleState)
    (line : List Char) (h : noLeadingIndent line = true) :
    parseLine cls i st line =
      if line.isEmpty then st else CheckIndentation cls i st line 0 := by
  unfold parseLine
  by_cases he : line.isEmpty
  · rw [if_pos he, if_pos he]
  · rw [if_neg he, if_neg he]
    cases heq : findFirstNotOf spaceTab line with
    | none => simp [heq]
    | some p =>
      have hp0 : p = 0 := by
        unfold noLeadingIndent at h
        simp [he, heq] at h
        exact h
      simp [heq, hp0]

theorem mem_ParseIndentation_noLeading (cls : Classifier) (ls : List (List Char))
    (idx : Nat) (st : RuleState) (v : Violation)
    (hlines : ∀ l ∈ ls, noLeadingIndent l = true)
    (hv : v ∈ (ParseIndentation cls idx st ls).violations_) :
    v ∈ st.violations_ ∨ v.message = Msg.mixedTabsSpaces1 ∨
      ∃ w, v.message = Msg.mixedTabsSpaces2 w := by
  induction ls generalizing idx st with
  | nil => exact Or.inl hv
  | cons l ls ih =>
    rw [ParseIndentation] at hv
    rcases ih (idx + 1) (parseLine cls idx st l)
        (fun l' hl' => hlines l' (List.mem_cons_of_mem _ hl')) hv with h1 | h1
    · rw [parseLine_noLeading cls idx st l (hlines l (List.mem_cons_self _ _))] at h1
      by_cases he : l.isEmpty
      · rw [if_pos he] at h1; exact Or.inl h1
      · rw [if_neg he] at h1
        rcases mem_CheckIndentation_new cls idx st l 0 v h1 with h2 | ⟨_, _, h3 | h3⟩
        · exact Or.inl h2
        · exact Or.inr (Or.inr ⟨st.num_indent_spaces, h3⟩)
        · exact Or.inr (Or.inl h3)
    · exact Or.inr h1

/-! ## Lemmas about `FindFileIndentation` and `Lint` -/

theorem FindFileIndentation_frame (cls : Classifier) (lines : List (List Char))
    (st : RuleState) :
    (FindFileIndentation cls lines st).violations_ = st.violations_ := rfl

theorem FindFileIndentation_ius_eq (cls : Classifier) (lines : List (List Char))
    (st : RuleState) :
    (FindFileIndentation cls lines st).indent_use_spaces =
      decide ((computeProfile cls lines).num_lines_starting_with_tabs ≤
        (computeProfile cls lines).num_lines_starting_with_spaces) := rfl

theorem FindFileIndentation_num_eq (cls : Classifier) (lines : List (List Char))
    (st : RuleState) :
    (FindFileIndentation cls lines st).num_indent_spaces =
      (if decide ((computeProfile cls lines).num_lines_starting_with_tabs ≤
          (computeProfile cls lines).num_lines_starting_with_spaces) then
        argmaxLoop (computeProfile cls lines).indents_histogram
       else 2) := rfl

theorem RuleState_eta (st : RuleState) (b : Bool) (n : Nat)
    (hb : st.indent_use_spaces = b) (hn : st.num_indent_spaces = n) :
    ({ st with indent_use_spaces := b, num_indent_spaces := n } : RuleState) = st := by
  cases st; cases hb; cases hn; rfl

theorem Lint_idem_state (cls : Classifier) (lines : List (List Char))
    (st : RuleState) : Lint cls lines (Lint cls lines st) = Lint cls lines st := by
  unfold Lint
  have hb : (ParseIndentation cls 0 (FindFileIndentation cls lines st) lines).indent_use_spaces =
      decide ((computeProfile cls lines).num_lines_starting_with_tabs ≤
        (computeProfile cls lines).num_lines_starting_with_spaces) := by
    rw [ParseIndentation_ius]; rfl
  have hm : (ParseIndentation cls 0 (FindFileIndentation cls lines st) lines).num_indent_spaces =
      (if decide ((computeProfile cls lines).num_lines_starting_with_tabs ≤
          (computeProfile cls lines).num_lines_starting_with_spaces) then
        argmaxLoop (computeProfile cls lines).indents_histogram
       else 2) := by
    rw [ParseIndentation_num]; rfl
  have h1 : FindFileIndentation cls lines
      (ParseIndentation cls 0 (FindFileIndentation cls lines st) lines) =
      ParseIndentation cls 0 (FindFileIndentation cls lines st) lines :=
    RuleState_eta _ _ _ hb hm
  rw [h1]
  refine ParseIndentation_absorb cls lines 0 (FindFileIndentation cls lines st) _
    ?_ ?_ (fun v hv => hv)
  · rw [hb]; rfl
  · rw [hm]; rfl

/-! ## Lemmas about the profiler -/

theorem argmaxLoop_spec (hist : Nat → Nat) :
    (1 ≤ argmaxLoop hist ∧ argmaxLoop hist ≤ 4) ∧
    (hist 1 ≤ hist (argmaxLoop hist) ∧ hist 2 ≤ hist (argmaxLoop hist) ∧
      hist 3 ≤ hist (argmaxLoop hist) ∧ hist 4 ≤ hist (argmaxLoop hist)) ∧
    ((hist 1 = 0 ∧ hist 2 = 0 ∧ hist 3 = 0 ∧ hist 4 = 0) →
      argmaxLoop hist = 2) := by
  unfold argmaxLoop
  simp only [List.foldl_cons, List.foldl_nil]
  split_ifs <;> simp_all <;> omega

theorem profileLine_nSpaces (cls : Classifier) (i : Nat) (ps : ProfState)
    (line : List Char) :
    (profileLine cls i ps line).num_lines_starting_with_spaces =
      ps.num_lines_starting_with_spaces +
        (if startsWithSpace cls i line then 1 else 0) := by
  unfold profileLine
  by_cases he : line.isEmpty
  · simp [he, startsWithSpace, classifiedIndented]
  · cases heq : findFirstNotOf spaceTab line with
    | none => simp [startsWithSpace, classifiedIndented, he, heq]
    | some pos =>
      by_cases hp0 : pos = 0
      · simp [startsWithSpace, classifiedIndented, he, heq, hp0]
      · by_cases hcls : cls i 0 = TokenKind.tkSpace
        · by_cases hsp : line.head? = some ' '
          · have hr : startsWithSpace cls i line = true := by
              simp [startsWithSpace, classifiedIndented, he, heq, hp0, hcls, hsp]
            cases hfs : findFirstNotOf (fun x => x == ' ') (line.take pos) with
            | some k => simp [he, heq, hp0, hcls, hsp, hfs, hr]
            | none =>
              simp only [he, heq, hp0, hcls, hsp, hfs, hr, Bool.false_eq_true,
                if_false, if_true]
              simp [he, heq, hp0, hcls, hsp, hfs, hr]
              split <;> simp
          · have hr : startsWithSpace cls i line = false := by
              simp [startsWithSpace, hsp]
            by_cases htb : line.head? = some '\t'
            · simp [he, heq, hp0, hcls, hsp, htb, hr]
            · simp [he, heq, hp0, hcls, hsp, htb, hr]
        · have hr : startsWithSpace cls i line = false := by
            simp [startsWithSpace, classifiedIndented, he, heq, hp0, hcls]
          simp [he, heq, hp0, hcls, hr]

theorem profileLine_nTabs (cls : Classifier) (i : Nat) (ps : ProfState)
    (line : List Char) :
    (profileLine cls i ps line).num_lines_starting_with_tabs =
      ps.num_lines_starting_with_tabs +
        (if startsWithTab cls i line then 1 else 0) := by
  unfold profileLine
  by_cases he : line.isEmpty
  · simp [he, startsWithTab, classifiedIndented]
  · cases heq : findFirstNotOf spaceTab line with
    | none => simp [startsWithTab, classifiedIndented, he, heq]
    | some pos =>
      by_cases hp0 : pos = 0
      · simp [startsWithTab, classifiedIndented, he, heq, hp0]
      · by_cases hcls : cls i 0 = TokenKind.tkSpace
        · by_cases hsp : line.head? = some ' '
          · have hr : startsWithTab cls i line = false := by
              simp [startsWithTab, hsp]
            cases hfs : findFirstNotOf (fun x => x == ' ') (line.take pos) with
            | some k => simp [he, heq, hp0, hcls, hsp, hfs, hr]
            | none =>
              simp [he, heq, hp0, hcls, hsp, hfs, hr]
              split <;> simp
          · by_cases htb : line.head? = some '\t'
            · have hr : startsWithTab cls i line = true := by
                simp [startsWithTab, classifiedIndented, he, heq, hp0, hcls, htb]
              simp [he, heq, hp0, hcls, hsp, htb, hr]
            · have hr : startsWithTab cls i line = false := by
                simp [startsWithTab, htb]
              simp [he, heq, hp0, hcls, hsp, htb, hr]
        · have hr : startsWithTab cls i line = false := by
            simp [startsWithTab, classifiedIndented, he, heq, hp0, hcls]
          simp [he, heq, hp0, hcls, hr]

theorem profileLine_hist (cls : Classifier) (i : Nat) (ps : ProfState)
    (line : List Char) :
    profHistAcc (profileLine cls i ps line) =
      match fullSpaceWidth cls i line with
      | some w => histStep (profHistAcc ps) w
      | none => profHistAcc ps := by
  unfold profileLine fullSpaceWidth
  by_cases he : line.isEmpty
  · simp [he]
  · cases heq : findFirstNotOf spaceTab line with
    | none => simp [he, heq]
    | some pos =>
      by_cases hp0 : pos = 0
      · simp [he, heq, hp0]
      · by_cases hcls : cls i 0 = TokenKind.tkSpace
        · by_cases hsp : line.head? = some ' '
          · cases hfs : findFirstNotOf (fun x => x == ' ') (line.take pos) with
            | some k => simp [he, heq, hp0, hcls, hsp, hfs, profHistAcc]
            | none =>
              simp only [he, heq, hp0, hcls, hsp, hfs]
              simp [he, heq, hp0, hcls, hsp, hfs, histStep, profHistAcc]
              split <;> simp [profHistAcc]
          · by_cases htb : line.head? = some '\t'
            · simp [he, heq, hp0, hcls, hsp, htb, profHistAcc]
            · simp [he, heq, hp0, hcls, hsp, htb, profHistAcc]
        · simp [he, heq, hp0, hcls, profHistAcc]

theorem profileLines_nSpaces (cls : Classifier) (ls : List (List Char))
    (idx : Nat) (ps : ProfState) :
    (profileLines cls idx ps ls).num_lines_starting_with_spaces =
      ps.num_lines_starting_with_spaces + countFrom (startsWithSpace cls) idx ls := by
  induction ls generalizing idx ps with
  | nil => simp [countFrom, profileLines]
  | cons l ls ih =>
    rw [profileLines, ih, profileLine_nSpaces, countFrom]
    split_ifs <;> omega

theorem profileLines_nTabs (cls : Classifier) (ls : List (List Char))
    (idx : Nat) (ps : ProfState) :
    (profileLines cls idx ps ls).num_lines_starting_with_tabs =
      ps.num_lines_starting_with_tabs + countFrom (startsWithTab cls) idx ls := by
  induction ls generalizing idx ps with
  | nil => simp [countFrom, profileLines]
  | cons l ls ih =>
    rw [profileLines, ih, profileLine_nTabs, countFrom]
    split_ifs <;> omega

theorem profileLines_hist (cls : Classifier) (ls : List (List Char))
    (idx : Nat) (ps : ProfState) :
    profHistAcc (profileLines cls idx ps ls) =
      (fullSpaceWidths cls idx ls).foldl histStep (profHistAcc ps) := by
  induction ls generalizing idx ps with
  | nil => rfl
  | cons l ls ih =>
    rw [profileLines, ih, fullSpaceWidths]
    cases hw : fullSpaceWidth cls idx l with
    | some w =>
      simp only [hw, List.foldl_cons]
      rw [profileLine_hist, hw]
    | none =>
      simp only [hw]
      rw [profileLine_hist, hw]

theorem profileLine_unclassified (cls : Classifier) (i : Nat) (ps : ProfState)
    (line : List Char) (h : classifiedIndented cls i line = false) :
    profileLine cls i ps line = ps := by
  unfold profileLine
  by_cases he : line.isEmpty
  · rw [if_pos he]
  · rw [if_neg he]
    cases heq : findFirstNotOf spaceTab line with
    | none => simp [heq]
    | some pos =>
      unfold classifiedIndented at h
      simp [he, heq] at h
      by_cases hp0 : pos = 0
      · simp [hp0]
      · have hcls : ¬ cls i 0 = TokenKind.tkSpace := h hp0
        simp [hp0, hcls]

theorem profileLines_unclassified (cls : Classifier) (ls : List (List Char))
    (idx : Nat) (ps : ProfState)
    (h : ∀ p ∈ ls.enumFrom idx, classifiedIndented cls p.1 p.2 = false) :
    profileLines cls idx ps ls = ps := by
  induction ls generalizing idx ps with
  | nil => rfl
  | cons l ls ih =>
    rw [profileLines,
      profileLine_unclassified cls idx ps l (h (idx, l) (List.mem_cons_self _ _))]
    exact ih idx.succ ps (fun p hp => h p (List.mem_cons_of_mem _ hp))

/-! ## The claims -/

/-- Claim C10: the profiling pass (`FindFileIndentation`) never emits a
violation: for every classifier, file and starting state the violation
collection is unchanged by running the profiler, and the violations of a
full `Lint` run are exactly those of the validator pass
(`ParseIndentation`) started from the profiled state. -/
theorem profiler_emits_no_violation (cls : Classifier)
    (lines : List (List Char)) (st : RuleState) :
    (FindFileIndentation cls lines st).violations_ = st.violations_ ∧
    (Lint cls lines st).violations_ =
      (ParseIndentation cls 0 (FindFileIndentation cls lines st) lines).violations_ :=
  ⟨rfl, rfl⟩

/-- Claim C9: running the two-pass pipeline (profiler then validator)
twice on the same immutable text yields an identical violation set: for
every classifier, file and starting state, the violations after the
second `Lint` run equal the violations after the first. -/
theorem lint_idempotent (cls : Classifier) (lines : List (List Char))
    (st : RuleState) :
    (Lint cls lines (Lint cls lines st)).violations_ =
      (Lint cls lines st).violations_ := by
  rw [Lint_idem_state]

/-- Claim C8: the violation collection never contains two violations with
an equal (location, message) key: inserting a violation equal to one
already present leaves the collection unchanged, and every sequence of
insertions performed by the rule keeps the collection duplicate-free. -/
theorem violation_set_deduplicates (cls : Classifier)
    (lines : List (List Char)) (st : RuleState) (v : Violation)
    (hv : v ∈ st.violations_) (hnd : st.violations_.Nodup) :
    insertViolation st v = st ∧ (Lint cls lines st).violations_.Nodup := by
  refine ⟨insertViolation_absorb st v hv, ?_⟩
  unfold Lint
  refine ParseIndentation_nodup cls lines 0 _ ?_
  rw [FindFileIndentation_frame]
  exact hnd

theorem violation_set_deduplicates_witness :
    insertViolation stW ⟨0, 0, Msg.mixedTabsSpaces1⟩ = stW ∧
    (Lint clsAll [['a']] stW).violations_.Nodup :=
  violation_set_deduplicates clsAll [['a']] stW ⟨0, 0, Msg.mixedTabsSpaces1⟩
    (by decide) (by decide)

/-- Claim C2: the profiler classifies each line that is non-empty, has a
non-empty leading whitespace span followed by a non-whitespace character
and whose leading token is genuine whitespace, as "starts with spaces" or
"starts with tabs" by its first character, and the dominant unit is
Spaces if and only if the space-count is at least the tab-count (ties
favour Spaces). -/
theorem dominant_unit_majority_vote (cls : Classifier)
    (lines : List (List Char)) (st : RuleState) :
    ((FindFileIndentation cls lines st).indent_use_spaces = true ↔
      countFrom (startsWithTab cls) 0 lines ≤
        countFrom (startsWithSpace cls) 0 lines) := by
  rw [FindFileIndentation_ius_eq, decide_eq_true_eq]
  unfold computeProfile
  rw [profileLines_nSpaces, profileLines_nTabs]
  simp [initProf]

/-- Claim C1: width inference never fails.  When the dominant unit is
Spaces the inferred width lies in `[1, 4]` and is the argmax over
histogram bins 1..4 (every such bin's count is at most the chosen
bin's count), it equals 2 whenever bins 1..4 are all zero, and for a
file contributing no classified indented line at all the produced
profile is exactly `{Spaces, 2}` with the rest of the state untouched. -/
theorem width_inference_never_fails (cls : Classifier)
    (lines : List (List Char)) (st : RuleState) :
    ((FindFileIndentation cls lines st).indent_use_spaces = true →
      1 ≤ (FindFileIndentation cls lines st).num_indent_spaces ∧
      (FindFileIndentation cls lines st).num_indent_spaces ≤ 4 ∧
      ((computeProfile cls lines).indents_histogram 1 ≤
          (computeProfile cls lines).indents_histogram
            ((FindFileIndentation cls lines st).num_indent_spaces) ∧
        (computeProfile cls lines).indents_histogram 2 ≤
          (computeProfile cls lines).indents_histogram
            ((FindFileIndentation cls lines st).num_indent_spaces) ∧
        (computeProfile cls lines).indents_histogram 3 ≤
          (computeProfile cls lines).indents_histogram
            ((FindFileIndentation cls lines st).num_indent_spaces) ∧
        (computeProfile cls lines).indents_histogram 4 ≤
          (computeProfile cls lines).indents_histogram
            ((FindFileIndentation cls lines st).num_indent_spaces)) ∧
      (((computeProfile cls lines).indents_histogram 1 = 0 ∧
          (computeProfile cls lines).indents_histogram 2 = 0 ∧
          (computeProfile cls lines).indents_histogram 3 = 0 ∧
          (computeProfile cls lines).indents_histogram 4 = 0) →
        (FindFileIndentation cls lines st).num_indent_spaces = 2)) ∧
    ((∀ p ∈ lines.enum, classifiedIndented cls p.1 p.2 = false) →
      FindFileIndentation cls lines st =
        { st with indent_use_spaces := true, num_indent_spaces := 2 }) := by
  constructor
  · intro hdom
    have hnum : (FindFileIndentation cls lines st).num_indent_spaces =
        argmaxLoop (computeProfile cls lines).indents_histogram := by
      rw [FindFileIndentation_num_eq]
      rw [FindFileIndentation_ius_eq] at hdom
      rw [if_pos hdom]
    rw [hnum]
    obtain ⟨⟨h1, h2⟩, ⟨h3, h4, h5, h6⟩, h7⟩ :=
      argmaxLoop_spec (computeProfile cls lines).indents_histogram
    exact ⟨h1, h2, ⟨h3, h4, h5, h6⟩, h7⟩
  · intro hall
    have hcp : computeProfile cls lines = initProf :=
      profileLines_unclassified cls lines 0 initProf hall
    unfold FindFileIndentation
    rw [hcp]
    rfl

theorem width_inference_never_fails_witness :
    1 ≤ (FindFileIndentation clsAll [['a']] initState).num_indent_spaces ∧
    FindFileIndentation clsAll [['a']] initState =
      { initState with indent_use_spaces := true, num_indent_spaces := 2 } :=
  ⟨((width_inference_never_fails clsAll [['a']] initState).1 (by decide)).1,
    (width_inference_never_fails clsAll [['a']] initState).2 (by decide)⟩

/-- Claim C3 (counterexample): for the file `exLines3` with
full-leading-space widths 2, 4, 4, 4, 11, the claim's histogram (clip the
delta to `[0, 4]`; fold zero deltas into the last nonzero bin) disagrees
with the code's histogram at bins 0 and 4: the delta-7 transition is
discarded by the code, not clipped into bin 4, and the second zero delta
is folded into bin 0 (the previous recorded delta), which the claim's
fold can never do. -/
theorem histogram_clip_counterexample :
    fullSpaceWidths clsAll 0 exLines3 = [2, 4, 4, 4, 11] ∧
    (computeProfile clsAll exLines3).indents_histogram 4 = 0 ∧
    (claimHist [2, 4, 4, 4, 11]).hist 4 = 1 ∧
    (computeProfile clsAll exLines3).indents_histogram 0 = 1 ∧
    (claimHist [2, 4, 4, 4, 11]).hist 0 = 0 :=
  ⟨by decide, by decide, by decide, by decide, by decide⟩

/-- Claim C3 (amended): the code's histogram is the fold of `histStep`
over the file's full-leading-space widths: a transition whose absolute
delta from the reference width is at most 4 increments exactly one bin
(a zero delta is folded into the bin of the previous recorded
transition, which may itself be bin 0), while a transition with delta 5
or more increments no bin and leaves the reference width and fold bin
unchanged. -/
theorem histogram_transition_characterization (cls : Classifier)
    (lines : List (List Char)) :
    (computeProfile cls lines).indents_histogram =
      ((fullSpaceWidths cls 0 lines).foldl histStep ⟨0, 0, fun _ => 0⟩).hist :=
  congrArg HistAcc.hist (profileLines_hist cls lines 0 initProf)

/-- Claim C4: for every non-empty line with a non-empty leading
whitespace span classified as a genuine whitespace token, the width check
reports a violation at that span (line `i`, column 0, message
`incorrectSpaces`) if and only if the dominant unit is Spaces, the purity
check passed, and the span's length is not an exact multiple of the
inferred width (beyond violations already present). -/
theorem width_check_iff (cls : Classifier) (i : Nat) (st : RuleState)
    (line : List Char) (pos : Nat)
    (hpos : findFirstNotOf spaceTab line = some pos) (h0 : pos ≠ 0)
    (hcls : cls i 0 = TokenKind.tkSpace) :
    ((⟨i, 0, Msg.incorrectSpaces st.num_indent_spaces⟩ : Violation) ∈
        (parseLine cls i st line).violations_ ↔
      ((⟨i, 0, Msg.incorrectSpaces st.num_indent_spaces⟩ : Violation) ∈
          st.violations_ ∨
        (st.indent_use_spaces = true ∧
          pureIndent st.indent_use_spaces (line.take pos) = true ∧
          (line.take pos).length % st.num_indent_spaces ≠ 0))) := by
  have hne : ¬ line.isEmpty = true := by
    cases line
    · simp [findFirstNotOf] at hpos
    · simp
  unfold parseLine
  rw [if_neg hne]
  simp only [hpos]
  rw [if_neg h0]
  constructor
  · intro hv
    rcases mem_CheckIndentation_new cls i _ _ _ _ hv with h1 | ⟨_, _, h2 | h2⟩
    · rw [mem_leadingChecks cls i st (line.take pos) _ hcls] at h1
      rcases h1 with h1 | ⟨hp, he⟩ | ⟨hp, hi2, hm, he⟩
      · exact Or.inl h1
      · exfalso
        by_cases hb : st.indent_use_spaces = true <;> simp [hb] at he
      · exact Or.inr ⟨hi2, hp, hm⟩
    · exact absurd h2 (by simp)
    · exact absurd h2 (by simp)
  · intro h
    rcases h with h | ⟨hb, hp, hm⟩
    · exact CheckIndentation_mono _ _ _ _ _ _ (leadingChecks_mono _ _ _ _ _ h)
    · refine CheckIndentation_mono _ _ _ _ _ _ ?_
      rw [mem_leadingChecks cls i st (line.take pos) _ hcls]
      exact Or.inr (Or.inr ⟨hp, hb, hm, rfl⟩)

theorem width_check_iff_witness :
    (⟨0, 0, Msg.incorrectSpaces 2⟩ : Violation) ∈
      (parseLine clsAll 0 stSpaces [' ', ' ', ' ', 'a']).violations_ :=
  (width_check_iff clsAll 0 stSpaces [' ', ' ', ' ', 'a'] 3 (by decide)
    (by decide) (by decide)).mpr (Or.inr ⟨rfl, by decide, by decide⟩)

/-- Claim C5 (counterexample): with Tabs dominant, the body scan of
`a<tab><space>b` finds the single maximal whitespace run `<tab><space>`,
which contains exactly one space, and reports a violation for it — so a
run containing exactly one space is not always tolerated. -/
theorem single_space_run_reported :
    wsRuns spaceTab ['a', '\t', ' ', 'b'] 0 = [(1, ['\t', ' '])] ∧
    (['\t', ' '].count ' ') = 1 ∧
    (CheckIndentation clsAll 0 initState ['a', '\t', ' ', 'b'] 0).violations_ =
      [⟨0, 1, Msg.mixedTabsSpaces1⟩] :=
  ⟨by decide, by decide, by decide⟩

/-- Claim C5 (amended): with Tabs dominant, the body scan reports a
violation exactly at the maximal whitespace runs (spaces and tabs
together) that are longer than one character, sit at a position the
classifier calls genuine whitespace, and contain at least one space: in
particular runs of two or more spaces are reported, a run of a single
character is never reported, and an all-tab run is never reported. -/
theorem body_scan_tabs_characterization (cls : Classifier) (i : Nat)
    (st : RuleState) (segment : List Char) (col0 : Nat) (v : Violation)
    (hdom : st.indent_use_spaces = false) :
    (v ∈ (CheckIndentation cls i st segment col0).violations_ ↔
      v ∈ st.violations_ ∨ ∃ s run, (s, run) ∈ wsRuns spaceTab segment col0 ∧
        1 < run.length ∧ cls i s = TokenKind.tkSpace ∧ ' ' ∈ run ∧
        v = ⟨i, s, Msg.mixedTabsSpaces1⟩) := by
  unfold CheckIndentation
  rw [if_neg (by rw [hdom]; exact Bool.false_ne_true)]
  rw [mem_foldl_tabsScan cls i _ st v hdom]
  constructor
  · rintro (h | ⟨⟨s, run⟩, hr, hlen, hcls2, hall, rfl⟩)
    · exact Or.inl h
    · refine Or.inr ⟨s, run, hr, hlen, hcls2, ?_, rfl⟩
      have hsound := wsRuns_sound spaceTab segment col0 s run hr
      have h2 := hsound.2
      rw [List.all_eq_true] at h2
      by_contra hns
      apply hall
      rw [List.all_eq_true]
      intro x hx
      have hst := h2 x hx
      simp [spaceTab] at hst
      rcases hst with h3 | h3
      · exact absurd (h3 ▸ hx) hns
      · simp [h3]
  · rintro (h | ⟨s, run, hr, hlen, hcls2, hsp, rfl⟩)
    · exact Or.inl h
    · refine Or.inr ⟨(s, run), hr, hlen, hcls2, ?_, rfl⟩
      intro hall
      have h4 := List.all_eq_true.mp hall _ hsp
      simp at h4

theorem body_scan_tabs_characterization_witness :
    (⟨0, 1, Msg.mixedTabsSpaces1⟩ : Violation) ∈
      (CheckIndentation clsAll 0 initState ['a', '\t', ' ', 'b'] 0).violations_ :=
  (body_scan_tabs_characterization clsAll 0 initState ['a', '\t', ' ', 'b'] 0
    ⟨0, 1, Msg.mixedTabsSpaces1⟩ rfl).mpr
    (Or.inr ⟨1, ['\t', ' '], by decide, by decide, rfl, by decide, rfl⟩)

/-- Claim C6: a candidate wrong-kind whitespace run whose location the
token classifier does not report as genuine whitespace (it lies inside a
comment or string literal) is never reported by the body scan, for any
input segment and any profile. -/
theorem body_scan_skips_unclassified (cls : Classifier) (i : Nat)
    (st : RuleState) (segment : List Char) (col0 : Nat) (v : Violation)
    (hnot : v ∉ st.violations_) (hcls : cls i v.col ≠ TokenKind.tkSpace) :
    v ∉ (CheckIndentation cls i st segment col0).violations_ := by
  intro hv
  rcases mem_CheckIndentation_new cls i st segment col0 v hv with h | ⟨_, h2, _⟩
  · exact hnot h
  · exact hcls h2

theorem body_scan_skips_unclassified_witness :
    (⟨0, 1, Msg.mixedTabsSpaces2 2⟩ : Violation) ∉
      (CheckIndentation clsNone 0 stSpaces ['a', '\t', 'b'] 0).violations_ :=
  body_scan_skips_unclassified clsNone 0 stSpaces ['a', '\t', 'b'] 0
    ⟨0, 1, Msg.mixedTabsSpaces2 2⟩ (by decide) (by decide)

/-- Claim C7 (counterexample): the file consisting of the single
all-whitespace (blank) line `<tab>` has no leading indentation to check,
yet a full `Lint` run reports one violation: the body scan still runs on
such lines and flags the tab run under the space-dominant default
profile. -/
theorem blank_file_reports_violation :
    (∀ l ∈ ([['\t']] : List (List Char)), noLeadingIndent l = true) ∧
    (Lint clsAll [['\t']] initState).violations_ =
      [⟨0, 0, Msg.mixedTabsSpaces2 2⟩] :=
  ⟨by decide, by decide⟩

/-- Claim C7 (amended): for a file all of whose lines are blank (empty or
all-whitespace) or have zero leading indentation, the validator reports
no leading-indentation (purity or width) violations: every violation it
adds comes from the body scan, i.e. carries a mixed-indentation body
message. -/
theorem no_leading_indent_only_body_violations (cls : Classifier)
    (ls : List (List Char)) (idx : Nat) (st : RuleState) (v : Violation)
    (hlines : ∀ l ∈ ls, noLeadingIndent l = true)
    (hv : v ∈ (ParseIndentation cls idx st ls).violations_) :
    v ∈ st.violations_ ∨ v.message = Msg.mixedTabsSpaces1 ∨
      ∃ w, v.message = Msg.mixedTabsSpaces2 w :=
  mem_ParseIndentation_noLeading cls ls idx st v hlines hv

theorem no_leading_indent_only_body_violations_witness :
    (⟨0, 0, Msg.mixedTabsSpaces2 2⟩ : Violation) ∈ stSpaces.violations_ ∨
    (⟨0, 0, Msg.mixedTabsSpaces2 2⟩ : Violation).message = Msg.mixedTabsSpaces1 ∨
    ∃ w, (⟨0, 0, Msg.mixedTabsSpaces2 2⟩ : Violation).message =
      Msg.mixedTabsSpaces2 w :=
  no_leading_indent_only_body_violations clsAll [['\t']] 0 stSpaces
    ⟨0, 0, Msg.mixedTabsSpaces2 2⟩ (by decide) (by decide)
